import Mathlib

/-
  Verification development for the github-analyzer repository.

  Shallow embedding of the analysis pipeline implemented in
  src/internal/services/github.go, src/internal/services/ai_analyzer.go and
  src/internal/services/github_fetcher.go.

  Modelling conventions:
  * Go strings are modelled as Lean String, manipulated through their
    character lists.  Go byte indices are modelled as character indices,
    which agrees with Go for ASCII data; goLen models Go len(s) exactly
    (the UTF-8 byte length).
  * Go int is modelled as Int (no overflow is reachable in the claims).
  * Case folding (strings.ToLower / ToUpper, regexp flag i) is modelled by
    ASCII folding, which agrees with Go on the ASCII tables used here.
  * Network fetches are abstracted as a function String -> Option String
    (none models a fetch or base64-decode failure, which the Go code
    skips); tree size lookup is abstracted likewise.
-/

namespace GithubAnalyzer

/-- UTF-8 encoded length of one character, as Go counts string bytes. -/
def charUtf8Len (c : Char) : Nat :=
  if c.toNat < 0x80 then 1
  else if c.toNat < 0x800 then 2
  else if c.toNat < 0x10000 then 3
  else 4

/-- Go len(s): the UTF-8 byte length of a string. -/
def goLen (s : String) : Nat := (s.data.map charUtf8Len).sum

/-- ASCII lower-casing of one character (strings.ToLower restricted to ASCII). -/
def toLowerChar (c : Char) : Char :=
  if 'A' ≤ c ∧ c ≤ 'Z' then Char.ofNat (c.toNat + 32) else c

/-- ASCII upper-casing of one character (strings.ToUpper restricted to ASCII). -/
def toUpperChar (c : Char) : Char :=
  if 'a' ≤ c ∧ c ≤ 'z' then Char.ofNat (c.toNat - 32) else c

/-- strings.ToLower, ASCII fragment. -/
def toLowerStr (s : String) : String := ⟨s.data.map toLowerChar⟩

/-- strings.ToUpper, ASCII fragment. -/
def toUpperStr (s : String) : String := ⟨s.data.map toUpperChar⟩

/-- Whether pat occurs at the very start of l. -/
def listStartsWith : List Char → List Char → Bool
  | [], _ => true
  | _ :: _, [] => false
  | p :: ps, c :: cs => p == c && listStartsWith ps cs

/-- Whether pat occurs contiguously anywhere inside l (strings.Contains). -/
def listContainsSeq (pat : List Char) : List Char → Bool
  | [] => pat.isEmpty
  | c :: rest => listStartsWith pat (c :: rest) || listContainsSeq pat rest

/-- strings.Contains s sub. -/
def goContains (s sub : String) : Bool := listContainsSeq sub.data s.data

/-- strings.HasPrefix s pre (pre occurs at the start of s). -/
def goStartsWith (s pre : String) : Bool := listStartsWith pre.data s.data

/-- Index of the first occurrence of pat in l (strings.Index, char-indexed). -/
def listIndexOfSeq (pat : List Char) : List Char → Option Nat
  | [] => if pat.isEmpty then some 0 else none
  | c :: rest =>
    if listStartsWith pat (c :: rest) then some 0
    else match listIndexOfSeq pat rest with
         | some n => some (n + 1)
         | none => none

/-- strings.Count path "/" for a single-character separator. -/
def countSlash (s : String) : Nat := s.data.count '/'

/-- The characters unicode.IsSpace recognises in the ASCII range
    (strings.TrimSpace trims these). -/
def isGoTrimSpace (c : Char) : Bool :=
  c == ' ' || c == '\t' || c == '\n' || c == '\x0b' || c == '\x0c' || c == '\r'

/-- strings.TrimSpace, ASCII fragment. -/
def trimSpaceStr (s : String) : String :=
  ⟨((s.data.dropWhile isGoTrimSpace).reverse.dropWhile isGoTrimSpace).reverse⟩

/-- Lexical path cleaning, the unix algorithm of path/filepath.Clean:
    collapse slashes, drop "." elements, resolve ".." elements, keep a
    leading ".." chain for relative paths, drop ".." at the root. -/
def cleanComps (rooted : Bool) : List String → List String → List String
  | acc, [] => acc.reverse
  | acc, c :: rest =>
    if c = ".." then
      match acc with
      | top :: accTail =>
        if top = ".." then cleanComps rooted (c :: top :: accTail) rest
        else cleanComps rooted accTail rest
      | [] =>
        if rooted then cleanComps rooted [] rest
        else cleanComps rooted [c] rest
    else cleanComps rooted (c :: acc) rest

/-- Split a character list at every slash (strings.Split on "/"). -/
def splitSlash : List Char → List Char → List String
  | acc, [] => [⟨acc.reverse⟩]
  | acc, c :: rest =>
    if c == '/' then ⟨acc.reverse⟩ :: splitSlash [] rest
    else splitSlash (c :: acc) rest

/-- Join path components with slashes. -/
def joinSlash : List String → String
  | [] => ""
  | [x] => x
  | x :: rest => x ++ "/" ++ joinSlash rest

/-- path/filepath.Clean (unix). -/
def cleanPath (path : String) : String :=
  if path = "" then "."
  else
    let rooted := goStartsWith path "/"
    let comps := (splitSlash [] path.data).filter (fun c => c != "" && c != ".")
    let comps := cleanComps rooted [] comps
    let joined := joinSlash comps
    if rooted then (if joined = "" then "/" else "/" ++ joined)
    else (if joined = "" then "." else joined)

/-- path/filepath.Base (unix): last element after trimming trailing
    slashes; "." for the empty path, "/" for all-slash paths. -/
def baseName (path : String) : String :=
  if path = "" then "."
  else
    let l := (path.data.reverse.dropWhile (fun c => c == '/')).reverse
    let b := (l.reverse.takeWhile (fun c => c != '/')).reverse
    if b.isEmpty then "/" else ⟨b⟩

/-- path/filepath.Dir (unix): everything through the final slash, cleaned. -/
def dirName (path : String) : String :=
  cleanPath ⟨(path.data.reverse.dropWhile (fun c => c != '/')).reverse⟩

/-- path/filepath.Ext (unix): the suffix starting at the final dot of the
    final path element, empty when that element has no dot. -/
def extName (path : String) : String :=
  let revComp := path.data.reverse.takeWhile (fun c => c != '/')
  if revComp.contains '.' then ⟨((revComp.takeWhile (fun c => c != '.')) ++ ['.']).reverse⟩
  else ""

/- ----------------------------------------------------------------
   Importance Scorer (calculateFileScore and friends, github.go)
   ---------------------------------------------------------------- -/

/-- Entry point file names from calculateFileScore (github.go). -/
def entryPoints : List String :=
  ["main.go", "main.py", "main.rs", "main.ts", "main.js",
   "app.go", "app.py", "app.ts", "app.js", "index.ts", "index.js",
   "server.go", "server.ts", "server.js", "cmd.go"]

/-- Config file names from calculateFileScore (github.go). -/
def configFiles : List String :=
  ["go.mod", "go.sum", "package.json", "cargo.toml",
   "requirements.txt", "pyproject.toml", "dockerfile", "docker-compose.yml",
   "makefile", ".env.example", "config.yaml", "config.json", "tsconfig.json"]

/-- The importantDirs map of calculateFileScore, listed in source order.
    In Go this is a map iterated with a range loop and a break at the
    first match; Go map iteration order is unspecified, so theorems about
    order sensitivity quantify over permutations of this list. -/
def importantDirs : List (String × Int) :=
  [("cmd", 85), ("internal", 80), ("pkg", 75), ("src", 75), ("lib", 70),
   ("api", 80), ("handlers", 85), ("controllers", 85), ("services", 80),
   ("models", 80), ("routes", 75), ("middleware", 75), ("utils", 60),
   ("helpers", 60), ("core", 80)]

/-- The extBoost map of calculateFileScore. Keyed lookup only, so the
    iteration order of the Go map is immaterial. -/
def extBoost : List (String × Int) :=
  [(".go", 20), (".py", 20), (".rs", 20), (".ts", 18), (".js", 15),
   (".tsx", 18), (".jsx", 15), (".java", 18), (".c", 15), (".cpp", 15),
   (".h", 10), (".rb", 15), (".php", 15), (".sql", 12)]

/-- codeExtensions of isCodeFile (github.go). -/
def codeExtensions : List String :=
  [".go", ".py", ".js", ".ts", ".jsx", ".tsx", ".rs", ".java", ".c", ".cpp",
   ".h", ".hpp", ".rb", ".php", ".swift", ".kt", ".scala", ".cs", ".vb",
   ".fs", ".clj", ".ex", ".exs", ".hs", ".ml", ".sql", ".sh", ".bash",
   ".yaml", ".yml", ".json", ".toml", ".xml"]

/-- isCodeFile (github.go). -/
def isCodeFile (path : String) : Bool :=
  codeExtensions.contains (toLowerStr (extName path))

/-- The test-file name conditions of calculateFileScore. -/
def isTestFileName (nameLower : String) : Bool :=
  goContains nameLower "_test." || goContains nameLower ".test." ||
  goContains nameLower ".spec." || goStartsWith nameLower "test_"

/-- The important-directory loop of calculateFileScore: the first entry of
    order whose key occurs in the lowered directory wins (score = dirScore;
    break); zero when no entry matches. -/
def dirScoreOf (order : List (String × Int)) (dirLower : String) : Int :=
  match order.find? (fun kv => goContains dirLower kv.1) with
  | some kv => kv.2
  | none => 0

/-- calculateFileScore (github.go lines 356-456), parameterised by the
    iteration order of the importantDirs map to model the unspecified Go
    map range order. -/
def calculateFileScoreWith (order : List (String × Int)) (path : String) : Int × String :=
  let name := baseName path
  let dir := dirName path
  let ext := toLowerStr (extName path)
  let nameLower := toLowerStr name
  if entryPoints.contains nameLower then (100, "entry")
  else if configFiles.contains nameLower then (90, "config")
  else
    let score : Int := dirScoreOf order (toLowerStr dir)
    if isTestFileName nameLower then (max score 40, "test")
    else
      let score := score +
        (match extBoost.find? (fun kv => kv.1 == ext) with
         | some kv => kv.2
         | none => 0)
      let depth : Int := (countSlash path : Int)
      let score := if depth > 4 then score - (depth - 4) * 5 else score
      if goContains path "vendor/" || goContains path "node_modules/" then (0, "")
      else
        let score := if score < 10 ∧ isCodeFile path then 10 else score
        (score, "source")

/-- calculateFileScore with the importantDirs map iterated in source
    order (one admissible Go iteration order). -/
def calculateFileScore (path : String) : Int × String :=
  calculateFileScoreWith importantDirs path

/-- detectLanguage (github.go). -/
def detectLanguage (path : String) : String :=
  let ext := toLowerStr (extName path)
  let languages : List (String × String) :=
    [(".go", "Go"), (".py", "Python"), (".js", "JavaScript"), (".ts", "TypeScript"),
     (".jsx", "React"), (".tsx", "React TypeScript"), (".rs", "Rust"),
     (".java", "Java"), (".c", "C"), (".cpp", "C++"), (".h", "C/C++ Header"),
     (".rb", "Ruby"), (".php", "PHP"), (".swift", "Swift"), (".kt", "Kotlin"),
     (".sql", "SQL"), (".sh", "Shell"), (".yaml", "YAML"), (".json", "JSON")]
  match languages.find? (fun kv => kv.1 == ext) with
  | some kv => kv.2
  | none => ""

/-- GitHubTreeEntry (github.go), the fields the pipeline reads.
    The Go field Type is spelled Typ here (Type is a Lean keyword). -/
structure GitHubTreeEntry where
  Path : String
  Typ : String
  Size : Int
  deriving DecidableEq

/-- FileImportance (github.go). -/
structure FileImportance where
  Path : String
  Score : Int
  Language : String
  Category : String
  deriving DecidableEq

/-- scoreFiles (github.go): keep blob entries with a code extension and a
    positive score, in tree order. -/
def scoreFiles (entries : List GitHubTreeEntry) : List FileImportance :=
  entries.filterMap (fun entry =>
    if entry.Typ ≠ "blob" then none
    else if ¬ isCodeFile entry.Path then none
    else
      let sc := calculateFileScore entry.Path
      if sc.1 > 0 then some ⟨entry.Path, sc.1, detectLanguage entry.Path, sc.2⟩
      else none)

/- ----------------------------------------------------------------
   Budgeted Selector (GetRepositoryFiles, github.go lines 221-299)
   ---------------------------------------------------------------- -/

/-- FileContent (internal/models/analysis.go). -/
structure FileContent where
  Path : String
  Content : String
  Language : String
  Size : Int
  deriving DecidableEq

/-- isBinaryContent (github.go): a null byte, or more than 10% of the
    content non-printable.  Go compares float64(nonPrintable)/float64(len)
    with 0.1; the comparison is modelled exactly on the rationals as
    10*nonPrintable > len, which agrees with the float comparison on all
    inputs reachable in the claims.  nonPrintable counts runes, len counts
    bytes, exactly as in the source. -/
def isBinaryContent (content : String) : Bool :=
  if content.data.contains '\x00' then true
  else
    let nonPrintable :=
      (content.data.filter (fun r => r.toNat < 32 && r != '\n' && r != '\r' && r != '\t')).length
    if goLen content > 0 ∧ 10 * nonPrintable > goLen content then true
    else false

/-- The tree-size lookup loop inside GetRepositoryFiles: linear scan for
    the first entry with a matching path, zero when absent. -/
def lookupSize (tree : List GitHubTreeEntry) (path : String) : Int :=
  match tree.find? (fun e => e.Path == path) with
  | some e => e.Size
  | none => 0

/-- The selection loop of GetRepositoryFiles (github.go lines 248-296).
    fetch combines GetFileContent and decodeContent: none models a fetch
    or base64-decode failure (both are skipped in the source).  In the
    source maxTotalSize = 500000 and maxPerFile = 100000 are literals;
    they are parameters here so the budget claims can be stated for every
    configuration.  Note the loop breaks only once totalSize has already
    reached maxTotalSize, i.e. after a possible overshoot. -/
def selectLoop (fetch : String → Option String) (tsize : String → Int)
    (maxFiles maxTotalSize maxPerFile : Int) :
    List FileImportance → List FileContent → Int → List FileContent
  | [], files, _ => files
  | sf :: rest, files, totalSize =>
    if (files.length : Int) ≥ maxFiles then files
    else if totalSize ≥ maxTotalSize then files
    else
      let fileSize := tsize sf.Path
      if fileSize > maxPerFile then
        selectLoop fetch tsize maxFiles maxTotalSize maxPerFile rest files totalSize
      else
        match fetch sf.Path with
        | none => selectLoop fetch tsize maxFiles maxTotalSize maxPerFile rest files totalSize
        | some decoded =>
          if isBinaryContent decoded then
            selectLoop fetch tsize maxFiles maxTotalSize maxPerFile rest files totalSize
          else
            selectLoop fetch tsize maxFiles maxTotalSize maxPerFile rest
              (files ++ [⟨sf.Path, decoded, sf.Language, (goLen decoded : Int)⟩])
              (totalSize + (goLen decoded : Int))

/-- Cumulative content length of a selection, in Go bytes. -/
def totalLenFC (files : List FileContent) : Int :=
  (files.map (fun f => (goLen f.Content : Int))).sum

/-- The maxFiles defaulting at the top of GetRepositoryFiles. -/
def defaultedMaxFiles (maxFiles : Int) : Int :=
  if maxFiles ≤ 0 then 15 else maxFiles

/-- The pure part of GetRepositoryFiles after the tree has been fetched
    and the scored files sorted: default the file count, then run the
    selection loop with the hard-coded 500000/100000 byte budgets. -/
def getRepositoryFilesSelect (fetch : String → Option String) (tree : List GitHubTreeEntry)
    (maxFiles : Int) (sorted : List FileImportance) : List FileContent :=
  selectLoop fetch (lookupSize tree) (defaultedMaxFiles maxFiles) 500000 100000 sorted [] 0

/-- The contract Go sort.Slice gives for the sort in GetRepositoryFiles
    (less i j = Score i > Score j): the result is a permutation of the
    input that is pairwise non-increasing in score.  sort.Slice does NOT
    guarantee stability (sort.SliceStable would), so any such permutation
    is an admissible outcome. -/
def goSortByScoreDesc (l res : List FileImportance) : Prop :=
  res.Perm l ∧ res.Pairwise (fun a b => a.Score ≥ b.Score)

/-- Modelled from the spec: insert into a score-descending list behind
    every element of greater-or-equal score (the stable position). -/
def specInsertDesc (x : FileImportance) : List FileImportance → List FileImportance
  | [] => [x]
  | y :: ys => if y.Score > x.Score then y :: specInsertDesc x ys else x :: y :: ys

/-- Modelled from the spec: the stable descending sort the spec sentence
    "stable by original tree order" describes, for comparison with the
    unstable sort actually used by the source. -/
def specStableSortDesc : List FileImportance → List FileImportance
  | [] => []
  | x :: xs => specInsertDesc x (specStableSortDesc xs)

/- ----------------------------------------------------------------
   Summary Builder (buildSummary, ai_analyzer.go lines 432-469)
   ---------------------------------------------------------------- -/

/-- Issue (internal/models/analysis.go). -/
structure Issue where
  Severity : String
  Category : String
  Title : String
  Description : String
  File : String
  Line : Int
  Suggestion : String
  deriving DecidableEq

/-- AnalysisSummary (internal/models/analysis.go).  The Go count maps are
    modelled as total functions String -> Int; a key the Go map does not
    hold reads as 0, exactly as a Go map lookup does. -/
structure AnalysisSummary where
  TotalIssues : Int
  IssuesBySeverity : String → Int
  IssuesByCategory : String → Int
  OverallScore : Int
  KeyFindings : List String

/-- One Go map increment m[k]++. -/
def bumpCount (m : String → Int) (k : String) : String → Int :=
  fun x => if x = k then m x + 1 else m x

/-- The counting loop of buildSummary: fold the increments over the
    issue list, starting from the empty map. -/
def countFold (f : Issue → String) (issues : List Issue) : String → Int :=
  issues.foldl (fun m i => bumpCount m (f i)) (fun _ => 0)

/-- The key-findings loop of buildSummary: walk the issues, stop once
    five titles are collected, keep HIGH and MEDIUM titles. -/
def keyFindingsLoop : List Issue → List String → List String
  | [], acc => acc
  | issue :: rest, acc =>
    if acc.length ≥ 5 then acc
    else if issue.Severity == "HIGH" || issue.Severity == "MEDIUM" then
      keyFindingsLoop rest (acc ++ [issue.Title])
    else keyFindingsLoop rest acc

/-- buildSummary (ai_analyzer.go lines 432-469).  The rawAnalysis
    parameter is accepted and unused, exactly as in the source. -/
def buildSummary (issues : List Issue) (_rawAnalysis : String) : AnalysisSummary :=
  let bySeverity := countFold (fun i => i.Severity) issues
  let byCategory := countFold (fun i => i.Category) issues
  let score : Int := 100
    - bySeverity "HIGH" * 10
    - bySeverity "MEDIUM" * 5
    - bySeverity "LOW" * 3
    - bySeverity "INFO" * 1
  { TotalIssues := (issues.length : Int)
    IssuesBySeverity := bySeverity
    IssuesByCategory := byCategory
    OverallScore := if score < 0 then 0 else score
    KeyFindings := keyFindingsLoop issues [] }

/- ----------------------------------------------------------------
   Token-format validator (IsValidToken, github_fetcher.go lines 154-162)
   ---------------------------------------------------------------- -/

/-- IsValidToken (github_fetcher.go).  The Go expression is
    A or B and C, and Go gives and a higher precedence than or, so it
    parses as A or (B and C); the parenthesisation below is exactly the
    one the Go compiler uses. -/
def IsValidToken (token : String) : Bool :=
  goStartsWith token "ghp_" ||
    (goStartsWith token "github_pat_" && decide (goLen token > 30))

/- ----------------------------------------------------------------
   Finding Extractor (parseIssues / parseIssuesSimple, ai_analyzer.go)

   The Go code drives its regexp patterns with the Perl-style
   leftmost-first matching semantics of the Go regexp package Find
   functions.  The engine below is a priority-respecting backtracking
   matcher over a small regex AST; each Go pattern is transcribed into
   that AST beneath it.  Go byte offsets are modelled as character
   offsets (identical for ASCII subjects); case-insensitive matching is
   ASCII folding, as in the source vocabularies.
   ---------------------------------------------------------------- -/

/-- The regex constructs used in ai_analyzer.go: literals (case
    sensitive and insensitive), single-character classes, ordered
    alternation, concatenation, greedy star, greedy and lazy plus,
    greedy option, capturing groups, end of text, and the multiline
    line anchors. -/
inductive RE where
  | lit (s : String)
  | litci (s : String)
  | cls (p : Char → Bool)
  | alt (rs : List RE)
  | seq (rs : List RE)
  | star (r : RE)
  | plusGreedy (r : RE)
  | plusLazy (r : RE)
  | optGreedy (r : RE)
  | grp (i : Nat) (r : RE)
  | eos
  | bolm
  | eolm

/-- Match a literal character list at the start of rem, optionally with
    ASCII case folding, returning the remainder. -/
def stripLit (ci : Bool) : List Char → List Char → Option (List Char)
  | [], rem => some rem
  | _ :: _, [] => none
  | p :: ps, c :: cs =>
    if (if ci then toLowerChar p == toLowerChar c else p == c) then stripLit ci ps cs
    else none

/-- One capture record: group index, start offset, stop offset. -/
abbrev Caps := List (Nat × Nat × Nat)

/-- The backtracking matcher.  reMatch orig fuel r rem idx caps k tries
    to match r at offset idx (rem is the subject suffix at idx),
    extending every success with the continuation k, in the priority
    order of Perl-style leftmost-first matching: earlier alternatives
    first, greedy operators longest first, lazy operators shortest
    first; group captures are recorded on success and discarded with the
    failing branch, the most recent occurrence winning.  orig is the
    whole subject (used by the line anchors).  fuel only forces
    termination: every evaluation below runs with ample fuel. -/
def reMatch (orig : List Char) : Nat → RE → List Char → Nat → Caps →
    (List Char → Nat → Caps → Option (Nat × Caps)) → Option (Nat × Caps)
  | 0, _, _, _, _, _ => none
  | fuel + 1, r, rem, idx, caps, k =>
    match r with
    | .lit s =>
      match stripLit false s.data rem with
      | some rem2 => k rem2 (idx + s.data.length) caps
      | none => none
    | .litci s =>
      match stripLit true s.data rem with
      | some rem2 => k rem2 (idx + s.data.length) caps
      | none => none
    | .cls p =>
      match rem with
      | [] => none
      | c :: cs => if p c then k cs (idx + 1) caps else none
    | .alt rs =>
      rs.foldr (fun r1 acc =>
        (reMatch orig fuel r1 rem idx caps k).orElse (fun _ => acc)) none
    | .seq rs =>
      match rs with
      | [] => k rem idx caps
      | r1 :: rest =>
        reMatch orig fuel r1 rem idx caps (fun rem2 idx2 caps2 =>
          reMatch orig fuel (.seq rest) rem2 idx2 caps2 k)
    | .star r1 =>
      (reMatch orig fuel r1 rem idx caps (fun rem2 idx2 caps2 =>
        if idx2 = idx then k rem2 idx2 caps2
        else reMatch orig fuel (.star r1) rem2 idx2 caps2 k)).orElse
        (fun _ => k rem idx caps)
    | .plusGreedy r1 =>
      reMatch orig fuel r1 rem idx caps (fun rem2 idx2 caps2 =>
        reMatch orig fuel (.star r1) rem2 idx2 caps2 k)
    | .plusLazy r1 =>
      reMatch orig fuel r1 rem idx caps (fun rem2 idx2 caps2 =>
        (k rem2 idx2 caps2).orElse (fun _ =>
          reMatch orig fuel (.plusLazy r1) rem2 idx2 caps2 k))
    | .optGreedy r1 =>
      (reMatch orig fuel r1 rem idx caps k).orElse (fun _ => k rem idx caps)
    | .grp i r1 =>
      reMatch orig fuel r1 rem idx caps (fun rem2 idx2 caps2 =>
        k rem2 idx2 ((i, idx, idx2) :: caps2))
    | .eos => if rem.isEmpty then k rem idx caps else none
    | .bolm =>
      if idx = 0 ∨ orig.getD (idx - 1) ' ' = '\n' then k rem idx caps else none
    | .eolm =>
      if rem.isEmpty ∨ rem.headD ' ' = '\n' then k rem idx caps else none

/-- Ample fuel for a subject: the engine call count is quadratic in the
    subject for the patterns used here. -/
def reFuel (orig : List Char) : Nat := (orig.length + 64) * (orig.length + 64) * 64

/-- Leftmost match: try the whole pattern at each successive offset,
    returning (start, stop, captures) of the first success. -/
def reFindFrom (orig : List Char) (r : RE) : List Char → Nat → Option (Nat × Nat × Caps)
  | rem, idx =>
    match reMatch orig (reFuel orig) r rem idx []
        (fun _ idx2 caps2 => some (idx2, caps2)) with
    | some (e, caps) => some (idx, e, caps)
    | none =>
      match rem with
      | [] => none
      | _ :: rest => reFindFrom orig r rest (idx + 1)

/-- All non-overlapping matches in left-to-right order (Go FindAll
    semantics; every pattern below matches at least one character). -/
def reFindAllAux (orig : List Char) (r : RE) : Nat → List Char → Nat → List (Nat × Nat × Caps)
  | 0, _, _ => []
  | fuel + 1, rem, idx =>
    match reFindFrom orig r rem idx with
    | none => []
    | some (s, e, caps) =>
      let nxt := if e > s then e else s + 1
      if nxt ≤ idx then []
      else (s, e, caps) :: reFindAllAux orig r fuel (orig.drop nxt) nxt

/-- All matches of a pattern in a subject. -/
def reFindAll (orig : List Char) (r : RE) : List (Nat × Nat × Caps) :=
  reFindAllAux orig r (orig.length + 1) orig 0

/-- The substring of a capture group; the empty string when the group
    did not participate in the match, as Go submatch extraction yields. -/
def capStr (orig : List Char) (caps : Caps) (g : Nat) : String :=
  match caps.find? (fun t => t.1 == g) with
  | some t => ⟨(orig.drop t.2.1).take (t.2.2 - t.2.1)⟩
  | none => ""

/-- The RE2 Perl class for whitespace: tab, newline, form feed,
    carriage return, space. -/
def isRegexSpace (c : Char) : Bool :=
  c == '\t' || c == '\n' || c == '\x0c' || c == '\r' || c == ' '

/-- The dot of Go regexp without the s flag: any character but newline. -/
def reDot : RE := .cls (fun c => c != '\n')

/-- issuePattern of parseIssues. -/
def issuePattern : RE := .seq [
  .lit "[",
  .grp 1 (.alt [.lit "HIGH", .lit "MEDIUM", .lit "LOW", .lit "INFO"]),
  .lit "/",
  .grp 2 (.alt [.lit "bug", .lit "security", .lit "performance",
                .lit "quality", .lit "style"]),
  .lit "]",
  .star (.cls isRegexSpace),
  .grp 3 (.plusLazy reDot),
  .alt [.lit "\n", .eos]]

/-- filePattern of parseIssues. -/
def filePattern : RE := .seq [
  .litci "File:",
  .star (.cls isRegexSpace),
  .grp 1 (.plusGreedy (.cls (fun c => c != '\n' && c != ':'))),
  .optGreedy (.seq [.lit ":",
    .grp 2 (.plusGreedy (.cls (fun c => '0' ≤ c && c ≤ '9')))])]

/-- descPattern of parseIssues. -/
def descPattern : RE := .seq [
  .litci "Description:",
  .star (.cls isRegexSpace),
  .grp 1 (.plusLazy reDot),
  .alt [.seq [.lit "\n", .alt [.litci "Suggestion:", .litci "File:", .lit "["]],
        .eos]]

/-- suggPattern of parseIssues: the suggestion text must be followed by
    a blank line, a newline starting a marker, or the end of text ($ in
    Go regexp matches only at the very end of the subject). -/
def suggPattern : RE := .seq [
  .litci "Suggestion:",
  .star (.cls isRegexSpace),
  .grp 1 (.plusLazy reDot),
  .alt [.lit "\n\n", .lit "\n[", .eos]]

/-- strconv.Atoi restricted to the digit strings the line capture can
    produce (Atoi errors on ints beyond int64, leaving the line unset). -/
def goAtoi (s : String) : Option Int :=
  if s.data ≠ [] ∧ s.data.all (fun c => '0' ≤ c && c ≤ '9') then
    let v : Int := s.data.foldl (fun acc c => acc * 10 + ((c.toNat : Int) - 48)) 0
    if v ≤ 9223372036854775807 then some v else none
  else none

/-- The ISSUES-section slicing of parseIssues: from the first
    case-insensitive "## ISSUES" to the next "##" found after offset 10.
    Go slices issuesSection[10:] with byte indices and would panic on a
    section shorter than 10 bytes; the total drop below returns the
    empty list there instead (no claim exercises that corner). -/
def issuesSectionOf (resp : List Char) : List Char :=
  match listIndexOfSeq "## ISSUES".data (resp.map toUpperChar) with
  | some i =>
    let sec := resp.drop i
    match listIndexOfSeq "##".data (sec.drop 10) with
    | some endIdx => sec.take (endIdx + 10)
    | none => sec
  | none => resp

/-- One loop body of parseIssues: severity, category and title from the
    marker capture groups, then the File/Description/Suggestion
    extractions over the text between this marker and the next, and the
    keep condition (a title plus a description or suggestion). -/
def issueOfMatch (sec : List Char) (e : Nat) (caps : Caps) (endPos : Nat) : Option Issue :=
  let severity := toUpperStr (capStr sec caps 1)
  let category := toLowerStr (capStr sec caps 2)
  let title := trimSpaceStr (capStr sec caps 3)
  let issueContent := (sec.drop e).take (endPos - e)
  let fileLine :=
    match reFindFrom issueContent filePattern issueContent 0 with
    | some (_, _, fcaps) =>
      let file := trimSpaceStr (capStr issueContent fcaps 1)
      let lineStr := capStr issueContent fcaps 2
      let line : Int :=
        if lineStr ≠ "" then
          match goAtoi lineStr with
          | some v => v
          | none => 0
        else 0
      (file, line)
    | none => ("", (0 : Int))
  let description :=
    match reFindFrom issueContent descPattern issueContent 0 with
    | some (_, _, dcaps) => trimSpaceStr (capStr issueContent dcaps 1)
    | none => ""
  let suggestion :=
    match reFindFrom issueContent suggPattern issueContent 0 with
    | some (_, _, scaps) => trimSpaceStr (capStr issueContent scaps 1)
    | none => ""
  if title ≠ "" ∧ (description ≠ "" ∨ suggestion ≠ "") then
    some ⟨severity, category, title, description, fileLine.1, fileLine.2, suggestion⟩
  else none

/-- parseIssues marker assembly: each match owns the text from its end
    to the start of the next match (or the end of the section). -/
def collectIssues (sec : List Char) : List (Nat × Nat × Caps) → List Issue
  | [] => []
  | (_, e, caps) :: rest =>
    let endPos :=
      match rest with
      | [] => sec.length
      | (s2, _, _) :: _ => s2
    match issueOfMatch sec e caps endPos with
    | some issue => issue :: collectIssues sec rest
    | none => collectIssues sec rest

/-- The structured-marker strategy of parseIssues (ai_analyzer.go lines
    284-353). -/
def parseStructured (response : String) : List Issue :=
  let sec := issuesSectionOf response.data
  collectIssues sec (reFindAll sec issuePattern)

/-- truncateString (ai_analyzer.go).  Go slices bytes; the claims only
    evaluate it on ASCII, where bytes and characters coincide. -/
def truncateString (s : String) (maxLen : Nat) : String :=
  if goLen s ≤ maxLen then s
  else ⟨s.data.take (maxLen - 3)⟩ ++ "..."

/-- The HIGH-tier keyword pattern of parseIssuesSimple. -/
def sevHighPat : RE := .seq [
  .lit "*", .optGreedy (.lit "*"),
  .grp 1 (.alt [.litci "critical", .litci "high severity",
                .litci "high risk", .litci "severe"]),
  .lit "*", .optGreedy (.lit "*"),
  .plusGreedy (.cls (fun c => c == ':' || isRegexSpace c)),
  .grp 2 (.plusLazy reDot),
  .alt [.lit "\n", .eos]]

/-- The MEDIUM-tier keyword pattern of parseIssuesSimple. -/
def sevMediumPat : RE := .seq [
  .lit "*", .optGreedy (.lit "*"),
  .grp 1 (.alt [.litci "warning", .litci "medium severity",
                .litci "medium risk", .litci "moderate"]),
  .lit "*", .optGreedy (.lit "*"),
  .plusGreedy (.cls (fun c => c == ':' || isRegexSpace c)),
  .grp 2 (.plusLazy reDot),
  .alt [.lit "\n", .eos]]

/-- The LOW-tier keyword pattern of parseIssuesSimple. -/
def sevLowPat : RE := .seq [
  .lit "*", .optGreedy (.lit "*"),
  .grp 1 (.alt [.litci "minor", .litci "low severity",
                .litci "low risk", .litci "suggestion"]),
  .lit "*", .optGreedy (.lit "*"),
  .plusGreedy (.cls (fun c => c == ':' || isRegexSpace c)),
  .grp 2 (.plusLazy reDot),
  .alt [.lit "\n", .eos]]

/-- bulletPattern of parseIssuesSimple (multiline anchors; the keyword
    alternation is case-sensitive in the source). -/
def bulletPat : RE := .seq [
  .bolm,
  .cls (fun c => c == '-' || c == '*'),
  .plusGreedy (.cls isRegexSpace),
  .grp 1 (.seq [
    .plusGreedy reDot,
    .alt [.lit "bug", .lit "issue", .lit "error", .lit "vulnerability",
          .lit "problem", .lit "missing", .lit "should", .lit "needs to"],
    .plusGreedy reDot]),
  .eolm]

/-- parseIssuesSimple (ai_analyzer.go lines 364-429): the emphasis-
    wrapped severity keywords per tier in source order, then the
    problem-flavoured bullet lines. -/
def parseIssuesSimple (response : String) : List Issue :=
  let resp := response.data
  let sevIssues :=
    ([(sevHighPat, "HIGH"), (sevMediumPat, "MEDIUM"), (sevLowPat, "LOW")]).foldl
      (fun acc ps =>
        acc ++ (reFindAll resp ps.1).map (fun m =>
          let t := trimSpaceStr (capStr resp m.2.2 2)
          ⟨ps.2, "quality", t, t, "", 0, ""⟩))
      []
  let bulletIssues := (reFindAll resp bulletPat).map (fun m =>
    let m1 := capStr resp m.2.2 1
    let content := toLowerStr m1
    let severity :=
      if goContains content "security" || goContains content "vulnerability" ||
         goContains content "injection" || goContains content "critical" then "HIGH"
      else if goContains content "bug" || goContains content "error" ||
              goContains content "crash" || goContains content "fail" then "MEDIUM"
      else "LOW"
    let category :=
      if goContains content "security" || goContains content "auth" ||
         goContains content "injection" || goContains content "xss" then "security"
      else if goContains content "performance" || goContains content "slow" ||
              goContains content "memory" || goContains content "n+1" then "performance"
      else if goContains content "bug" || goContains content "error" then "bug"
      else "quality"
    ⟨severity, category, truncateString m1 100, m1, "", 0, ""⟩)
  sevIssues ++ bulletIssues

/-- parseIssues (ai_analyzer.go lines 284-361): the structured strategy,
    falling back to parseIssuesSimple exactly when it found nothing. -/
def parseIssues (response : String) : List Issue :=
  let issues := parseStructured response
  if issues.isEmpty then parseIssuesSimple response else issues

/- ----------------------------------------------------------------
   Analyze (ai_analyzer.go lines 88-156), response handling tail
   ---------------------------------------------------------------- -/

/-- One completion choice of the Perplexity response (the content field
    the pipeline reads). -/
structure PerplexityChoice where
  content : String
  deriving DecidableEq

/-- The decoded PerplexityResponse fields the pipeline reads. -/
structure PerplexityResponse where
  choices : List PerplexityChoice
  totalTokens : Int
  deriving DecidableEq

/-- AnalysisResult (ai_analyzer.go). -/
structure AnalysisResult where
  RawAnalysis : String
  Summary : AnalysisSummary
  Issues : List Issue
  TokensUsed : Int

/-- The decision tail of Analyze (ai_analyzer.go lines 140-155), after
    transport, HTTP status and JSON decoding succeeded: an empty choices
    list is the only error; otherwise the first choice is parsed and
    summarised, whatever its content. -/
def analyzeFromResponse (response : PerplexityResponse) : Except String AnalysisResult :=
  match response.choices with
  | [] => .error "no response from Perplexity AI"
  | choice :: _ =>
    let rawAnalysis := choice.content
    let issues := parseIssues rawAnalysis
    let summary := buildSummary issues rawAnalysis
    .ok ⟨rawAnalysis, summary, issues, response.totalTokens⟩

/-- Whether an analyze result is a success. -/
def isOkB (r : Except String AnalysisResult) : Bool :=
  match r with
  | .ok _ => true
  | .error _ => false

/-- The issue list of a successful analyze result. -/
def resultIssues (r : Except String AnalysisResult) : Option (List Issue) :=
  match r with
  | .ok a => some a.Issues
  | .error _ => none

/-- The overall score of a successful analyze result. -/
def resultScore (r : Except String AnalysisResult) : Option Int :=
  match r with
  | .ok a => some a.Summary.OverallScore
  | .error _ => none

/-- The total issue count of a successful analyze result. -/
def resultTotal (r : Except String AnalysisResult) : Option Int :=
  match r with
  | .ok a => some a.Summary.TotalIssues
  | .error _ => none

/-- The Scenario C completion text of the spec, with its trailing
    newline. -/
def scenarioCText : String :=
  "## ISSUES\n[HIGH/security] SQL injection\nFile: db.go:42\nDescription: unescaped input\nSuggestion: use parameterized queries\n"

/-- Scenario C without the trailing newline: the suggestion now ends at
    the end of text, where the suggestion terminator can match. -/
def scenarioCTextNoNL : String :=
  "## ISSUES\n[HIGH/security] SQL injection\nFile: db.go:42\nDescription: unescaped input\nSuggestion: use parameterized queries"

/-- A two-entry completion text in the marker format of spec section 6,
    each suggestion terminated by a blank line or the end of text. -/
def twoEntryText : String :=
  "## ISSUES\n\n[HIGH/security] SQL injection\nFile: db.go:42\nDescription: unescaped input\nSuggestion: use parameterized queries\n\n[MEDIUM/bug] Another issue title\nFile: path/to/file.go:45\nDescription: What is the problem\nSuggestion: How to fix it"

/- ----------------------------------------------------------------
   Concrete sample data used by the theorems below
   ---------------------------------------------------------------- -/

/-- A sample scored candidate. -/
def fiA : FileImportance := ⟨"a.go", 50, "Go", "source"⟩

/-- A second sample scored candidate with the same score. -/
def fiB : FileImportance := ⟨"b.go", 50, "Go", "source"⟩

/-- A fetch capability that always returns the one-byte text x. -/
def fetchOne : String → Option String := fun _ => some "x"

/-- A tree-size capability that reports one byte for every path. -/
def sizeOne : String → Int := fun _ => 1

/-- The FileContent produced for a candidate under fetchOne. -/
def mkOne (sf : FileImportance) : FileContent := ⟨sf.Path, "x", sf.Language, 1⟩

/-- The Scenario E finding list: severities HIGH, HIGH, MEDIUM, LOW. -/
def demoIssues : List Issue :=
  [⟨"HIGH", "security", "t1", "d1", "", 0, ""⟩,
   ⟨"HIGH", "bug", "t2", "d2", "", 0, ""⟩,
   ⟨"MEDIUM", "quality", "t3", "d3", "", 0, ""⟩,
   ⟨"LOW", "style", "t4", "d4", "", 0, ""⟩]

/- ================================================================
   Theorems
   ================================================================ -/

/-- Every value in a key-score table found by find? is bounded when all
    table values are. -/
theorem findSnd_le (l : List (String × Int)) (b : Int) (hall : ∀ x ∈ l, x.2 ≤ b)
    (hb : 0 ≤ b) (p : String × Int → Bool) :
    (match l.find? p with | some kv => kv.2 | none => 0) ≤ b := by
  cases hf : l.find? p with
  | none => simpa using hb
  | some kv =>
    simpa using hall kv (List.mem_of_find?_eq_some hf)

/-- Every score in the importantDirs table is at most 85, along every
    iteration order of the Go map. -/
theorem dirScoreOf_le (order : List (String × Int)) (horder : order.Perm importantDirs)
    (d : String) : dirScoreOf order d ≤ 85 := by
  unfold dirScoreOf
  refine findSnd_le order 85 ?_ (by norm_num) _
  intro x hx
  have hall : ∀ y ∈ importantDirs, y.2 ≤ 85 := by decide
  exact hall x (horder.mem_iff.mp hx)

/-- find? agrees along any two iteration orders when at most one table
    entry satisfies the predicate. -/
theorem find?_eq_of_perm_unique (o1 o2 : List (String × Int)) (p : String × Int → Bool)
    (h1 : o1.Perm importantDirs) (h2 : o2.Perm importantDirs)
    (huniq : (importantDirs.filter p).length ≤ 1) :
    o1.find? p = o2.find? p := by
  cases hf1 : o1.find? p with
  | none =>
    cases hf2 : o2.find? p with
    | none => rfl
    | some b =>
      exfalso
      have hb : p b = true := List.find?_some hf2
      have hbm : b ∈ o1 := h1.mem_iff.mpr (h2.mem_iff.mp (List.mem_of_find?_eq_some hf2))
      exact absurd hb (by simpa using List.find?_eq_none.mp hf1 b hbm)
  | some a =>
    cases hf2 : o2.find? p with
    | none =>
      exfalso
      have ha : p a = true := List.find?_some hf1
      have ham : a ∈ o2 := h2.mem_iff.mpr (h1.mem_iff.mp (List.mem_of_find?_eq_some hf1))
      exact absurd ha (by simpa using List.find?_eq_none.mp hf2 a ham)
    | some b =>
      have ha : p a = true := List.find?_some hf1
      have hb : p b = true := List.find?_some hf2
      have haf : a ∈ importantDirs.filter p :=
        List.mem_filter.mpr ⟨h1.mem_iff.mp (List.mem_of_find?_eq_some hf1), ha⟩
      have hbf : b ∈ importantDirs.filter p :=
        List.mem_filter.mpr ⟨h2.mem_iff.mp (List.mem_of_find?_eq_some hf2), hb⟩
      congr 1
      rcases hls : importantDirs.filter p with _ | ⟨x, _ | ⟨y, rest⟩⟩
      · rw [hls] at haf
        exact absurd haf (List.not_mem_nil a)
      · rw [hls] at haf hbf
        rw [List.mem_singleton.mp haf, List.mem_singleton.mp hbf]
      · rw [hls] at huniq
        simp at huniq

/-- C2 (amended): along every iteration order of the importantDirs map
    and for every path, the score returned by calculateFileScore is at
    most 105 (not 100: an important-directory base of 85 plus an
    extension boost of 20 is reachable); and a path containing a vendor
    or node_modules segment is forced to score 0 provided none of the
    earlier returns fire, i.e. its base filename is not an entry-point
    name, not a config name, and not a test-convention name. -/
theorem importance_score_bounds (order : List (String × Int))
    (horder : order.Perm importantDirs) (path : String) :
    (calculateFileScoreWith order path).1 ≤ 105 ∧
    ((goContains path "vendor/" || goContains path "node_modules/") = true →
     entryPoints.contains (toLowerStr (baseName path)) = false →
     configFiles.contains (toLowerStr (baseName path)) = false →
     isTestFileName (toLowerStr (baseName path)) = false →
     calculateFileScoreWith order path = (0, "")) := by
  have hdir := dirScoreOf_le order horder (toLowerStr (dirName path))
  have hboost :
      (match extBoost.find? (fun kv => kv.1 == toLowerStr (extName path)) with
       | some kv => kv.2
       | none => 0) ≤ 20 := by
    refine findSnd_le extBoost 20 ?_ (by norm_num) _
    decide
  constructor
  · simp only [calculateFileScoreWith]
    split_ifs <;> dsimp only <;> omega
  · intro hv he hc ht
    have he2 : toLowerStr (baseName path) ∉ entryPoints := by simpa using he
    have hc2 : toLowerStr (baseName path) ∉ configFiles := by simpa using hc
    simp [calculateFileScoreWith, he2, hc2, ht, hv]

/-- C2 counterexample: the claim as stated fails twice over.  The path
    cmd/foo.go scores 105 > 100 (directory base 85 plus .go boost 20),
    and vendor/main.go scores 100 because the entry-point early return
    fires before the vendor exclusion is ever consulted. -/
theorem importance_score_claim_fails :
    calculateFileScore "cmd/foo.go" = (105, "source") ∧
    calculateFileScore "vendor/main.go" = (100, "entry") ∧
    ¬ (calculateFileScore "cmd/foo.go").1 ≤ 100 ∧
    (calculateFileScore "vendor/main.go").1 ≠ 0 := by
  refine ⟨by decide, by decide, by decide, by decide⟩

/-- C2 witness: the amended theorem applied at the source iteration
    order. vendor/lib/x.go (spec Scenario B) is forced to 0 and the
    cmd/foo.go score respects the 105 bound. -/
theorem importance_score_bounds_witness :
    calculateFileScoreWith importantDirs "vendor/lib/x.go" = (0, "") ∧
    (calculateFileScoreWith importantDirs "cmd/foo.go").1 ≤ 105 :=
  ⟨(importance_score_bounds importantDirs (List.Perm.refl _) "vendor/lib/x.go").2
      (by decide) (by decide) (by decide) (by decide),
   (importance_score_bounds importantDirs (List.Perm.refl _) "cmd/foo.go").1⟩

/-- C5 (amended): the scorer is order-independent, hence deterministic,
    exactly on the paths whose directory matches at most one entry of the
    importantDirs table; for such paths any two Go map iteration orders
    give the same (score, category) pair.  (No longest-match rule exists
    in the source: the first match in iteration order wins.) -/
theorem scorer_order_independent (o1 o2 : List (String × Int))
    (h1 : o1.Perm importantDirs) (h2 : o2.Perm importantDirs) (path : String)
    (huniq : (importantDirs.filter
        (fun kv => goContains (toLowerStr (dirName path)) kv.1)).length ≤ 1) :
    calculateFileScoreWith o1 path = calculateFileScoreWith o2 path := by
  have key : dirScoreOf o1 (toLowerStr (dirName path))
      = dirScoreOf o2 (toLowerStr (dirName path)) := by
    unfold dirScoreOf
    rw [find?_eq_of_perm_unique o1 o2 _ h1 h2 huniq]
  simp only [calculateFileScoreWith]
  rw [key]

/-- C5 witness: order independence evaluated at cmd/foo.go, whose
    directory matches exactly one table entry. -/
theorem scorer_order_independent_witness :
    calculateFileScoreWith importantDirs.reverse "cmd/foo.go"
      = calculateFileScoreWith importantDirs "cmd/foo.go" ∧
    calculateFileScoreWith importantDirs "cmd/foo.go" = (105, "source") :=
  ⟨scorer_order_independent importantDirs.reverse importantDirs
      (List.reverse_perm importantDirs) (List.Perm.refl _) "cmd/foo.go" (by decide),
   by decide⟩

/-- C5 counterexample: the scorer is NOT a deterministic function of the
    path.  internal/handlers/x.go matches two table entries, so two
    admissible Go map iteration orders (the source order and its
    reverse, both permutations of the same map) return different scores:
    100 via internal, 105 via handlers. -/
theorem scorer_not_deterministic :
    importantDirs.reverse.Perm importantDirs ∧
    calculateFileScoreWith importantDirs "internal/handlers/x.go" = (100, "source") ∧
    calculateFileScoreWith importantDirs.reverse "internal/handlers/x.go" = (105, "source") ∧
    calculateFileScoreWith importantDirs "internal/handlers/x.go"
      ≠ calculateFileScoreWith importantDirs.reverse "internal/handlers/x.go" :=
  ⟨List.reverse_perm _, by decide, by decide, by decide⟩

/-- A character list starting with the github_pat_ characters cannot
    start with the ghp_ characters (the second characters differ). -/
theorem startsWith_git_not_ghp (l : List Char)
    (h : listStartsWith "github_pat_".data l = true) :
    listStartsWith "ghp_".data l = false := by
  have hp1 : "github_pat_".data
      = ['g', 'i', 't', 'h', 'u', 'b', '_', 'p', 'a', 't', '_'] := rfl
  have hp2 : "ghp_".data = ['g', 'h', 'p', '_'] := rfl
  rw [hp1] at h
  rw [hp2]
  rcases l with _ | ⟨c1, l⟩
  · simp [listStartsWith] at h
  rcases l with _ | ⟨c2, l⟩
  · simp [listStartsWith] at h
  simp only [listStartsWith, Bool.and_eq_true, beq_iff_eq] at h
  obtain ⟨h1, h2, -⟩ := h
  subst h1
  subst h2
  simp [listStartsWith, show (('h' == 'i') = false) from by decide]

/-- A token with the github_pat_ prefix cannot also have the ghp_ prefix. -/
theorem githubpat_not_ghp (token : String)
    (h : goStartsWith token "github_pat_" = true) :
    goStartsWith token "ghp_" = false :=
  startsWith_git_not_ghp token.data h

/-- C9: the token-format validator accepts every ghp_ token regardless
    of length, and accepts a github_pat_ token exactly when its byte
    length exceeds 30 — the operator-precedence reading A or (B and C)
    of the Go expression A or B and C. -/
theorem token_validator_precedence (token : String) :
    (goStartsWith token "ghp_" = true → IsValidToken token = true) ∧
    (goStartsWith token "github_pat_" = true →
      (IsValidToken token = true ↔ goLen token > 30)) := by
  constructor
  · intro h
    simp [IsValidToken, h]
  · intro h
    have hg := githubpat_not_ghp token h
    simp [IsValidToken, h, hg]

/-- C9 witness: a five-byte ghp_ token is accepted while a twelve-byte
    github_pat_ token is rejected. -/
theorem token_validator_precedence_witness :
    IsValidToken "ghp_x" = true ∧ IsValidToken "github_pat_x" = false := by
  constructor
  · exact (token_validator_precedence "ghp_x").1 (by decide)
  · have h := (token_validator_precedence "github_pat_x").2 (by decide)
    have hlen : ¬ goLen "github_pat_x" > 30 := by decide
    cases hv : IsValidToken "github_pat_x"
    · rfl
    · exact absurd (h.mp hv) hlen

/-- The number of selected files never exceeds the (non-negative part of
    the) file budget, whatever accumulator the loop starts from. -/
theorem selectLoop_length_le (fetch : String → Option String) (tsize : String → Int)
    (mf mt mpf : Int) :
    ∀ (cands : List FileImportance) (files : List FileContent) (tot : Int),
    ((selectLoop fetch tsize mf mt mpf cands files tot).length : Int)
      ≤ max (files.length : Int) mf := by
  intro cands
  induction cands with
  | nil =>
    intro files tot
    simp [selectLoop]
  | cons sf rest ih =>
    intro files tot
    simp only [selectLoop]
    by_cases h1 : (files.length : Int) ≥ mf
    · rw [if_pos h1]; exact le_max_left _ _
    rw [if_neg h1]
    by_cases h2 : tot ≥ mt
    · rw [if_pos h2]; exact le_max_left _ _
    rw [if_neg h2]
    by_cases h3 : tsize sf.Path > mpf
    · rw [if_pos h3]; exact ih files tot
    rw [if_neg h3]
    cases hfe : fetch sf.Path with
    | none => exact ih files tot
    | some dec =>
      dsimp only
      by_cases h4 : isBinaryContent dec = true
      · rw [if_pos h4]; exact ih files tot
      · rw [if_neg h4]
        have hx := ih (files ++ [⟨sf.Path, dec, sf.Language, (goLen dec : Int)⟩])
          (tot + (goLen dec : Int))
        rw [List.length_append] at hx
        simp only [List.length_singleton] at hx
        omega

/-- The running total counts exactly the selected content bytes, and the
    loop can only push it past the byte budget by one final file. -/
theorem selectLoop_total_le (fetch : String → Option String) (tsize : String → Int)
    (mf mt mpf : Int)
    (hfc : ∀ p s, fetch p = some s → (goLen s : Int) = tsize p) :
    ∀ (cands : List FileImportance) (files : List FileContent) (tot : Int),
    tot = totalLenFC files →
    totalLenFC (selectLoop fetch tsize mf mt mpf cands files tot)
      ≤ max tot (mt - 1 + mpf) := by
  intro cands
  induction cands with
  | nil =>
    intro files tot htot
    simp [selectLoop, ← htot]
  | cons sf rest ih =>
    intro files tot htot
    simp only [selectLoop]
    by_cases h1 : (files.length : Int) ≥ mf
    · rw [if_pos h1, ← htot]; exact le_max_left _ _
    rw [if_neg h1]
    by_cases h2 : tot ≥ mt
    · rw [if_pos h2, ← htot]; exact le_max_left _ _
    rw [if_neg h2]
    by_cases h3 : tsize sf.Path > mpf
    · rw [if_pos h3]; exact ih files tot htot
    rw [if_neg h3]
    cases hfe : fetch sf.Path with
    | none => exact ih files tot htot
    | some dec =>
      dsimp only
      by_cases h4 : isBinaryContent dec = true
      · rw [if_pos h4]; exact ih files tot htot
      · rw [if_neg h4]
        have hlen : (goLen dec : Int) = tsize sf.Path := hfc _ _ hfe
        have htot2 : tot + (goLen dec : Int)
            = totalLenFC (files ++ [⟨sf.Path, dec, sf.Language, (goLen dec : Int)⟩]) := by
          simp [totalLenFC, htot]
        have hx := ih (files ++ [⟨sf.Path, dec, sf.Language, (goLen dec : Int)⟩])
          (tot + (goLen dec : Int)) htot2
        omega

/-- Every file the loop appends respects the per-file byte cap, provided
    the fetched content length agrees with the tree-listed size. -/
theorem selectLoop_perFile (fetch : String → Option String) (tsize : String → Int)
    (mf mt mpf : Int)
    (hfc : ∀ p s, fetch p = some s → (goLen s : Int) = tsize p) :
    ∀ (cands : List FileImportance) (files : List FileContent) (tot : Int),
    (∀ f ∈ files, f.Size ≤ mpf ∧ f.Size = (goLen f.Content : Int)) →
    ∀ f ∈ selectLoop fetch tsize mf mt mpf cands files tot,
      f.Size ≤ mpf ∧ f.Size = (goLen f.Content : Int) := by
  intro cands
  induction cands with
  | nil =>
    intro files tot hinv
    simpa [selectLoop] using hinv
  | cons sf rest ih =>
    intro files tot hinv
    simp only [selectLoop]
    by_cases h1 : (files.length : Int) ≥ mf
    · rw [if_pos h1]; exact hinv
    rw [if_neg h1]
    by_cases h2 : tot ≥ mt
    · rw [if_pos h2]; exact hinv
    rw [if_neg h2]
    by_cases h3 : tsize sf.Path > mpf
    · rw [if_pos h3]; exact ih files tot hinv
    rw [if_neg h3]
    cases hfe : fetch sf.Path with
    | none => exact ih files tot hinv
    | some dec =>
      dsimp only
      by_cases h4 : isBinaryContent dec = true
      · rw [if_pos h4]; exact ih files tot hinv
      · rw [if_neg h4]
        refine ih _ _ ?_
        intro f hf
        rcases List.mem_append.mp hf with hold | hnew
        · exact hinv f hold
        · have : f = ⟨sf.Path, dec, sf.Language, (goLen dec : Int)⟩ :=
            List.mem_singleton.mp hnew
          subst this
          have hlen : (goLen dec : Int) = tsize sf.Path := hfc _ _ hfe
          exact ⟨by simpa [hlen] using le_of_not_lt h3, rfl⟩

/-- C1 (amended): for every fetch capability whose content lengths agree
    with the tree-listed sizes and every budget configuration, the
    selection contains at most maxFiles entries and every selected file
    has length at most maxPerFileBytes; the cumulative length however is
    only bounded by maxTotalBytes - 1 + maxPerFileBytes, because the loop
    breaks only after the running total has already reached the byte
    budget, so the final appended file may overshoot it. -/
theorem budget_selector_bounds (fetch : String → Option String) (tsize : String → Int)
    (mf mt mpf : Int) (cands : List FileImportance)
    (hfc : ∀ p s, fetch p = some s → (goLen s : Int) = tsize p) :
    ((selectLoop fetch tsize mf mt mpf cands [] 0).length : Int) ≤ max 0 mf ∧
    totalLenFC (selectLoop fetch tsize mf mt mpf cands [] 0)
      ≤ max 0 (mt - 1 + mpf) ∧
    (∀ f ∈ selectLoop fetch tsize mf mt mpf cands [] 0,
       f.Size ≤ mpf ∧ f.Size = (goLen f.Content : Int)) := by
  refine ⟨?_, ?_, ?_⟩
  · simpa using selectLoop_length_le fetch tsize mf mt mpf cands [] 0
  · simpa using selectLoop_total_le fetch tsize mf mt mpf hfc cands [] 0
      (by simp [totalLenFC])
  · exact selectLoop_perFile fetch tsize mf mt mpf hfc cands [] 0 (by simp)

/-- C1 witness: the amended bounds evaluated at a concrete two-byte
    fetch with file budget 1. -/
theorem budget_selector_bounds_witness :
    ((selectLoop (fun _ => some "ab") (fun _ => 2) 1 100 10 [fiA, fiB] [] 0).length : Int)
      ≤ max 0 1 ∧
    totalLenFC (selectLoop (fun _ => some "ab") (fun _ => 2) 1 100 10 [fiA, fiB] [] 0)
      ≤ max 0 (100 - 1 + 10) := by
  have h := budget_selector_bounds (fun _ => some "ab") (fun _ => 2) 1 100 10 [fiA, fiB]
    (fun p s hps => by
      injection hps with h2
      subst h2
      exact (by decide : ((goLen "ab" : Nat) : Int) = 2))
  exact ⟨h.1, h.2.1⟩

/-- C1 counterexample: the claim as stated is false — the cumulative
    selected length can exceed maxTotalBytes.  With byte budget 10 and
    two nine-byte fetchable files the loop selects both (the total is
    checked only before each iteration), giving a cumulative length of
    18 > 10. -/
theorem budget_total_overshoot :
    totalLenFC (selectLoop (fun _ => some "aaaaaaaaa") (fun _ => 9) 15 10 100
      [fiA, fiB] [] 0) = 18 ∧
    ¬ totalLenFC (selectLoop (fun _ => some "aaaaaaaaa") (fun _ => 9) 15 10 100
      [fiA, fiB] [] 0) ≤ 10 := by
  exact ⟨by decide, by decide⟩

/-- C10: a non-positive maxFiles is replaced by the documented default
    15 before selection, so the selection equals the maxFiles = 15
    selection and returns at most 15 files. -/
theorem default_max_files (fetch : String → Option String) (tree : List GitHubTreeEntry)
    (mf : Int) (sorted : List FileImportance) (h : mf ≤ 0) :
    getRepositoryFilesSelect fetch tree mf sorted
      = getRepositoryFilesSelect fetch tree 15 sorted ∧
    ((getRepositoryFilesSelect fetch tree mf sorted).length : Int) ≤ 15 := by
  have hd : defaultedMaxFiles mf = 15 := by simp [defaultedMaxFiles, h]
  have hd15 : defaultedMaxFiles 15 = 15 := by norm_num [defaultedMaxFiles]
  constructor
  · simp [getRepositoryFilesSelect, hd, hd15]
  · have hx := selectLoop_length_le fetch (lookupSize tree) 15 500000 100000 sorted [] 0
    simp only [getRepositoryFilesSelect, hd]
    simpa using hx

/-- C10 witness: the defaulting theorem evaluated at maxFiles = 0. -/
theorem default_max_files_witness :
    getRepositoryFilesSelect fetchOne [] 0 [fiA]
      = getRepositoryFilesSelect fetchOne [] 15 [fiA] ∧
    ((getRepositoryFilesSelect fetchOne [] 0 [fiA]).length : Int) ≤ 15 :=
  default_max_files fetchOne [] 0 [fiA] (by norm_num)

/-- With the always-successful one-byte fetch the selection loop simply
    takes the first (15 - already-selected) candidates in order. -/
theorem selectLoop_unbounded_take :
    ∀ (l : List FileImportance) (files : List FileContent) (tot : Int),
    files.length ≤ 15 → tot = (files.length : Int) →
    selectLoop fetchOne sizeOne 15 500000 100000 l files tot
      = files ++ (l.take (15 - files.length)).map mkOne := by
  intro l
  induction l with
  | nil =>
    intro files tot h1 h2
    simp [selectLoop]
  | cons sf rest ih =>
    intro files tot h1 h2
    simp only [selectLoop]
    by_cases hge : (files.length : Int) ≥ 15
    · rw [if_pos hge]
      have h15 : 15 - files.length = 0 := by omega
      rw [h15]
      simp
    · rw [if_neg hge]
      have hlt : files.length < 15 := by omega
      have h2' : ¬ tot ≥ 500000 := by omega
      rw [if_neg h2']
      have h3 : ¬ sizeOne sf.Path > 100000 := by norm_num [sizeOne]
      rw [if_neg h3]
      have hfe : fetchOne sf.Path = some "x" := rfl
      rw [hfe]
      dsimp only
      have hbin : ¬ isBinaryContent "x" = true := by decide
      rw [if_neg hbin]
      have hgl : ((goLen "x" : Nat) : Int) = 1 := by decide
      rw [hgl]
      have hmk : (⟨sf.Path, "x", sf.Language, 1⟩ : FileContent) = mkOne sf := rfl
      rw [hmk]
      rw [ih (files ++ [mkOne sf]) (tot + 1)
        (by rw [List.length_append, List.length_singleton]; omega)
        (by rw [List.length_append, List.length_singleton]; push_cast; omega)]
      have hk : 15 - files.length = (15 - (files.length + 1)) + 1 := by omega
      rw [List.length_append, List.length_singleton, hk, List.take_succ_cons,
        List.map_cons, List.append_assoc]
      rfl

/-- C6 (amended): the source sorts with sort.Slice, whose contract only
    promises a score-descending permutation — equal-score order is
    implementation-defined, not guaranteed stable.  For Scenario D
    (20 candidates, unconstraining byte budget) every admissible sorted
    outcome makes the selector return exactly the first 15 entries of
    that outcome: 15 files drawn from the original candidates, but not
    necessarily the original first 15 in original order. -/
theorem selector_takes_first_fifteen (l res : List FileImportance)
    (hsort : goSortByScoreDesc l res) :
    selectLoop fetchOne sizeOne 15 500000 100000 res [] 0
      = (res.take 15).map mkOne ∧
    (∀ x ∈ res.take 15, x ∈ l) ∧
    (l.length = 20 → ((res.take 15).map mkOne).length = 15) := by
  refine ⟨?_, ?_, ?_⟩
  · simpa using selectLoop_unbounded_take res [] 0 (by norm_num) (by norm_num)
  · intro x hx
    exact hsort.1.mem_iff.mp (List.mem_of_mem_take hx)
  · intro h20
    have hlen : res.length = 20 := by rw [hsort.1.length_eq, h20]
    rw [List.length_map, List.length_take, hlen]
    omega

/-- C6 witness: the amended statement evaluated on 20 identical
    candidates of score 50 sorted trivially. -/
theorem selector_takes_first_fifteen_witness :
    selectLoop fetchOne sizeOne 15 500000 100000 (List.replicate 20 fiA) [] 0
      = ((List.replicate 20 fiA).take 15).map mkOne ∧
    (((List.replicate 20 fiA).take 15).map mkOne).length = 15 := by
  have hsort : goSortByScoreDesc (List.replicate 20 fiA) (List.replicate 20 fiA) :=
    ⟨List.Perm.refl _, by decide⟩
  have h := selector_takes_first_fifteen _ _ hsort
  exact ⟨h.1, h.2.2 (by decide)⟩

/-- C6 counterexample: stability is not guaranteed.  For two equal-score
    candidates the swapped order satisfies the contract of the source
    sort (a score-descending permutation) yet differs from the stable
    order the spec describes. -/
theorem selector_sort_not_stable :
    goSortByScoreDesc [fiA, fiB] [fiB, fiA] ∧
    specStableSortDesc [fiA, fiB] = [fiA, fiB] ∧
    [fiB, fiA] ≠ specStableSortDesc [fiA, fiB] := by
  refine ⟨⟨List.Perm.swap fiA fiB [], by decide⟩, by decide, by decide⟩

/-- The Go map-increment fold counts exactly the issues whose key
    matches. -/
theorem countFold_eq (f : Issue → String) :
    ∀ (issues : List Issue) (k : String),
    countFold f issues k = ((issues.filter (fun i => f i == k)).length : Int) := by
  have aux : ∀ (issues : List Issue) (m : String → Int) (k : String),
      issues.foldl (fun m i => bumpCount m (f i)) m k
        = m k + ((issues.filter (fun i => f i == k)).length : Int) := by
    intro issues
    induction issues with
    | nil =>
      intro m k
      simp
    | cons i rest ih =>
      intro m k
      simp only [List.foldl_cons, List.filter_cons]
      by_cases h : f i = k
      · rw [ih]
        simp [bumpCount, h]
        omega
      · rw [ih]
        have hb : (f i == k) = false := by simpa using h
        simp [bumpCount, h, hb]
        exact fun hk => h hk.symm
  intro issues k
  simpa using aux issues (fun _ => 0) k

/-- The key-findings loop takes the first five HIGH or MEDIUM titles in
    original order. -/
theorem keyFindingsLoop_eq :
    ∀ (issues : List Issue) (acc : List String),
    keyFindingsLoop issues acc
      = acc ++ ((issues.filter
          (fun i => i.Severity == "HIGH" || i.Severity == "MEDIUM")).map
            (fun i => i.Title)).take (5 - acc.length) := by
  intro issues
  induction issues with
  | nil =>
    intro acc
    simp [keyFindingsLoop]
  | cons i rest ih =>
    intro acc
    simp only [keyFindingsLoop, List.filter_cons]
    by_cases h5 : acc.length ≥ 5
    · rw [if_pos h5]
      have h0 : 5 - acc.length = 0 := by omega
      rw [h0]
      by_cases hm : (i.Severity == "HIGH" || i.Severity == "MEDIUM") = true
      · simp [hm]
      · simp [hm]
    · rw [if_neg h5]
      by_cases hm : (i.Severity == "HIGH" || i.Severity == "MEDIUM") = true
      · rw [if_pos hm, ih, if_pos hm]
        have hk : 5 - acc.length = (5 - (acc.length + 1)) + 1 := by omega
        rw [hk, List.map_cons, List.take_succ_cons, List.length_append,
          List.length_singleton, List.append_assoc]
        rfl
      · rw [if_neg hm, ih, if_neg hm]

/-- C4: the summary builder is the pure aggregation the claim describes:
    totalIssues is the list length, the severity and category counts are
    the multiset counts, the overall score is 100 minus 10/5/3/1 per
    HIGH/MEDIUM/LOW/INFO finding clamped below at 0 (hence within
    [0, 100]), keyFindings is the first five HIGH or MEDIUM titles in
    original order; Scenario E evaluates to counts 2/1/1 and score 72. -/
theorem summary_builder_correct (issues : List Issue) (raw : String) :
    (buildSummary issues raw).TotalIssues = (issues.length : Int) ∧
    (∀ k, (buildSummary issues raw).IssuesBySeverity k
        = ((issues.filter (fun i => i.Severity == k)).length : Int)) ∧
    (∀ k, (buildSummary issues raw).IssuesByCategory k
        = ((issues.filter (fun i => i.Category == k)).length : Int)) ∧
    (buildSummary issues raw).OverallScore
      = max 0 (100
          - 10 * ((issues.filter (fun i => i.Severity == "HIGH")).length : Int)
          - 5 * ((issues.filter (fun i => i.Severity == "MEDIUM")).length : Int)
          - 3 * ((issues.filter (fun i => i.Severity == "LOW")).length : Int)
          - 1 * ((issues.filter (fun i => i.Severity == "INFO")).length : Int)) ∧
    0 ≤ (buildSummary issues raw).OverallScore ∧
    (buildSummary issues raw).OverallScore ≤ 100 ∧
    (buildSummary issues raw).KeyFindings
      = ((issues.filter
          (fun i => i.Severity == "HIGH" || i.Severity == "MEDIUM")).map
            (fun i => i.Title)).take 5 ∧
    (buildSummary demoIssues "").IssuesBySeverity "HIGH" = 2 ∧
    (buildSummary demoIssues "").IssuesBySeverity "MEDIUM" = 1 ∧
    (buildSummary demoIssues "").IssuesBySeverity "LOW" = 1 ∧
    (buildSummary demoIssues "").OverallScore = 72 := by
  refine ⟨rfl, ?_, ?_, ?_, ?_, ?_, ?_, by decide, by decide, by decide, by decide⟩
  · intro k
    simpa [buildSummary] using countFold_eq (fun i => i.Severity) issues k
  · intro k
    simpa [buildSummary] using countFold_eq (fun i => i.Category) issues k
  · simp only [buildSummary]
    rw [countFold_eq, countFold_eq, countFold_eq, countFold_eq]
    split_ifs <;> omega
  · simp only [buildSummary]
    rw [countFold_eq, countFold_eq, countFold_eq, countFold_eq]
    split_ifs <;> omega
  · simp only [buildSummary]
    rw [countFold_eq, countFold_eq, countFold_eq, countFold_eq]
    split_ifs <;> omega
  · simpa [buildSummary] using keyFindingsLoop_eq issues []

set_option maxRecDepth 100000 in
/-- C3 counterexample: on the exact Scenario C text the primary parser
    returns one finding whose suggestion is EMPTY, not the claimed
    verbatim suggestion.  The suggestion regex requires a blank line, a
    newline starting a marker, or the end of text right after the
    suggestion, and the trailing newline of the scenario defeats all
    three (Go $ matches only at the very end of the subject). -/
theorem scenario_c_suggestion_lost :
    parseIssues scenarioCText
      = [⟨"HIGH", "security", "SQL injection", "unescaped input", "db.go", 42, ""⟩] ∧
    (⟨"HIGH", "security", "SQL injection", "unescaped input", "db.go", 42, ""⟩ : Issue)
      ≠ ⟨"HIGH", "security", "SQL injection", "unescaped input", "db.go", 42,
         "use parameterized queries"⟩ :=
  ⟨by decide, by decide⟩

set_option maxRecDepth 100000 in
/-- C3 (amended): the primary parser extracts marker entries with every
    field verbatim (after trimming) when each entry's suggestion is
    followed by a blank line or ends the text: Scenario C without its
    trailing newline yields the full claimed finding, and a two-entry
    text in the section 6 format yields exactly its two findings
    verbatim and in order. -/
theorem marker_roundtrip_amended :
    parseIssues scenarioCTextNoNL
      = [⟨"HIGH", "security", "SQL injection", "unescaped input", "db.go", 42,
          "use parameterized queries"⟩] ∧
    parseIssues twoEntryText
      = [⟨"HIGH", "security", "SQL injection", "unescaped input", "db.go", 42,
          "use parameterized queries"⟩,
         ⟨"MEDIUM", "bug", "Another issue title", "What is the problem",
          "path/to/file.go", 45, "How to fix it"⟩] :=
  ⟨by decide, by decide⟩

/-- C7: the fallback strategy runs exactly when the structured strategy
    found nothing (the result is always one strategy's output, never a
    mix), and a response with a choice on which both strategies find
    nothing still succeeds: empty findings, zero total issues, overall
    score 100. -/
theorem fallback_iff_primary_empty :
    (∀ r : String, parseIssues r
        = if parseStructured r = [] then parseIssuesSimple r else parseStructured r) ∧
    (∀ (resp : PerplexityResponse) (choice : PerplexityChoice)
       (rest : List PerplexityChoice), resp.choices = choice :: rest →
      parseStructured choice.content = [] →
      parseIssuesSimple choice.content = [] →
      isOkB (analyzeFromResponse resp) = true ∧
      resultIssues (analyzeFromResponse resp) = some [] ∧
      resultTotal (analyzeFromResponse resp) = some 0 ∧
      resultScore (analyzeFromResponse resp) = some 100) := by
  constructor
  · intro r
    simp only [parseIssues]
    by_cases h : parseStructured r = []
    · simp [h]
    · simp [h, List.isEmpty_iff]
  · intro resp choice rest hch h1 h2
    have hpi : parseIssues choice.content = [] := by
      simp [parseIssues, h1, h2]
    refine ⟨?_, ?_, ?_, ?_⟩ <;>
      simp [analyzeFromResponse, hch, hpi, isOkB, resultIssues, resultTotal,
        resultScore, buildSummary, countFold, keyFindingsLoop]

/-- C7 witness: both strategies find nothing in the text "All good.",
    and the analysis of a response carrying it succeeds with an empty
    finding list and a clean summary. -/
theorem fallback_iff_primary_empty_witness :
    parseStructured "All good." = [] ∧
    parseIssuesSimple "All good." = [] ∧
    resultIssues (analyzeFromResponse ⟨[⟨"All good."⟩], 3⟩) = some [] ∧
    resultScore (analyzeFromResponse ⟨[⟨"All good."⟩], 3⟩) = some 100 := by
  have h := fallback_iff_primary_empty.2 ⟨[⟨"All good."⟩], 3⟩ ⟨"All good."⟩ [] rfl
    (by decide) (by decide)
  exact ⟨by decide, by decide, h.2.1, h.2.2.2⟩

/-- C8 (amended): the analyze tail fails exactly when the response has
    zero choices; an empty content text in the first choice is NOT an
    error — it flows through the parsers like any text. -/
theorem analyze_error_iff_no_choices (resp : PerplexityResponse) :
    isOkB (analyzeFromResponse resp) = !resp.choices.isEmpty ∧
    (analyzeFromResponse resp = Except.error "no response from Perplexity AI"
      ↔ resp.choices = []) := by
  cases hch : resp.choices with
  | nil => simp [analyzeFromResponse, hch, isOkB]
  | cons c rest => simp [analyzeFromResponse, hch, isOkB]

/-- C8 counterexample: a response whose single choice carries the empty
    text succeeds with an empty finding list — the claim says this case
    must fail with an error. -/
theorem empty_text_not_error :
    isOkB (analyzeFromResponse ⟨[⟨""⟩], 7⟩) = true ∧
    resultIssues (analyzeFromResponse ⟨[⟨""⟩], 7⟩) = some [] ∧
    resultTotal (analyzeFromResponse ⟨[⟨""⟩], 7⟩) = some 0 :=
  ⟨by decide, by decide, by decide⟩

end GithubAnalyzer
